import Mathlib

set_option autoImplicit false

/-!
Verification development for the table_forge repository.

The definitions below are a shallow embedding of the TypeScript sources:
the shared data model (src/types.ts), the CSV export service
(src/services/csvService.ts, the separator-aware revision), the project
loader and global asset-prefix handler (src/App.tsx), the row operations of
the data editor (src/components/DataEditor.tsx), and the request-schema
mapping of the AI service (src/services/geminiService.ts).

JavaScript runtime values stored in a row cell are modelled by `CellValue`
(with `undef` for `undefined`), JS objects by ordered association lists,
and JS truthiness by explicit `truthy` functions.
-/

/-- Field types from src/types.ts, plus the legacy unified `Image` member
(string value `image`) that older project files may still carry and that
the shipped geminiService revision special-cases. -/
inductive FieldType
  | Text
  | Number
  | Boolean
  | Select
  | KeyValueSelect
  | ImageURL
  | ImageFile
  | LongText
  | Image
  deriving DecidableEq

/-- The composite value held by an ImageFile cell.  Each component is a JS
string or absent (`none` models `undefined` as well as an explicit `null`
payload, which the code treats identically through truthiness checks). -/
structure ImageFileValue where
  fileName : Option String
  filePath : Option String
  fileData : Option String
  deriving DecidableEq

/-- A JavaScript value stored in a row cell. -/
inductive CellValue
  | undef
  | null
  | str (s : String)
  | bool (b : Bool)
  | num (n : Int)
  | file (f : ImageFileValue)
  deriving DecidableEq

/-- JavaScript truthiness of a cell value. -/
def CellValue.truthy : CellValue → Bool
  | .undef => false
  | .null => false
  | .str s => s != ""
  | .bool b => b
  | .num n => n != 0
  | .file _ => true

/-- JavaScript `a || b`. -/
def jsOr (a b : CellValue) : CellValue := if a.truthy then a else b

/-- JavaScript `String(v)` coercion. -/
def CellValue.toJsString : CellValue → String
  | .undef => "undefined"
  | .null => "null"
  | .str s => s
  | .bool b => if b then "true" else "false"
  | .num n => toString n
  | .file _ => "[object Object]"

/-- FieldDefinition from src/types.ts.  `defaultValue?: any` is modelled as
a `CellValue` that is `undef` when the property is absent. -/
structure FieldDefinition where
  id : String
  name : String
  type : FieldType
  options : Option (List String) := none
  keyValueOptions : Option (List (String × String)) := none
  defaultValue : CellValue := CellValue.undef
  deriving DecidableEq

/-- RowData from src/types.ts: the reserved `__groupId` key plus an
open-ended mapping from field id to value, kept in JS property order. -/
structure RowData where
  __groupId : Option String := none
  cells : List (String × CellValue) := []
  deriving DecidableEq, Inhabited

/-- GroupDefinition from src/types.ts.  The optional group-specific asset
prefix (source property `assetPrefix`) is the field `assetPfx`. -/
structure GroupDefinition where
  id : String
  name : String
  color : Option String := none
  collapsed : Option Bool := none
  assetPfx : Option String := none
  deriving DecidableEq

/-- ProjectData from src/types.ts.  The optional global asset prefix
(source property `assetPrefix`) is the field `assetPfx`. -/
structure ProjectData where
  name : String
  schema : List FieldDefinition
  groups : List GroupDefinition
  rows : List RowData
  assetPfx : Option String := none
  csvSeparator : Option String := none
  deriving DecidableEq

/-- JS property read on an ordered association list. -/
def lookupKey {α : Type} : List (String × α) → String → Option α
  | [], _ => none
  | (k, v) :: rest, key => if k = key then some v else lookupKey rest key

/-- JS property write: updates in place preserving property order, appends
a new property at the end. -/
def setKey {α : Type} : List (String × α) → String → α → List (String × α)
  | [], key, v => [(key, v)]
  | (k, w) :: rest, key, v =>
      if k = key then (k, v) :: rest else (k, w) :: setKey rest key v

/-- `row[fieldId]`: reading a missing property yields `undefined`. -/
def RowData.get (r : RowData) (fieldId : String) : CellValue :=
  (lookupKey r.cells fieldId).getD CellValue.undef

/-- Cell read on a raw cell list. -/
def lookupCell (cells : List (String × CellValue)) (fieldId : String) : CellValue :=
  (lookupKey cells fieldId).getD CellValue.undef

/-! ### CSV export service (src/services/csvService.ts, lines 48-79) -/

/-- `value.includes(separator) || value.includes('"') || value.includes('\n')`
for the configured single-character separator. -/
def needsQuote (sep : Char) (s : List Char) : Bool :=
  s.contains sep || s.contains '"' || s.contains '\n'

/-- `stringValue.replace(/"/g, '""')`. -/
def doubleQuotes : List Char → List Char
  | [] => []
  | c :: cs => if c = '"' then '"' :: '"' :: doubleQuotes cs else c :: doubleQuotes cs

/-- The escaping step shared by headers (lines 49-56) and data values
(lines 70-74): wrap in double quotes, doubling internal quotes, exactly
when the value contains the separator, a double quote, or a newline. -/
def escapeCsvField (sep : Char) (s : List Char) : List Char :=
  if needsQuote sep s then '"' :: (doubleQuotes s ++ ['"']) else s

/-- Truthiness of an optional JS string. -/
def truthyString : Option String → Bool
  | some s => s != ""
  | none => false

/-- `value.filePath || value.fileName || ''` (line 65). -/
def ImageFileValue.exportValue (f : ImageFileValue) : String :=
  if truthyString f.filePath then f.filePath.getD ""
  else if truthyString f.fileName then f.fileName.getD ""
  else ""

/-- The string form of one exported data cell (lines 60-74 before
escaping): ImageFile objects are replaced by `filePath || fileName || ''`,
null/undefined export as the empty string, all else is stringified. -/
def csvCellString (field : FieldDefinition) (row : RowData) : String :=
  let value := row.get field.id
  let value :=
    match field.type, value with
    | FieldType.ImageFile, CellValue.file f => CellValue.str f.exportValue
    | _, v => v
  match value with
  | CellValue.null => ""
  | CellValue.undef => ""
  | v => v.toJsString

/-- `Array.prototype.join(sep)` on character lists. -/
def joinSep (sep : Char) : List (List Char) → List Char
  | [] => []
  | [x] => x
  | x :: y :: rest => x ++ sep :: joinSep sep (y :: rest)

/-- One CSV record: each value escaped, then joined by the separator. -/
def csvRecordChars (sep : Char) (vals : List (List Char)) : List Char :=
  joinSep sep (vals.map (escapeCsvField sep))

/-- exportToCsv (lines 48-79): header record, a newline, then the data
records joined by newlines. -/
def exportToCsv (project : ProjectData) (sep : Char) : List Char :=
  csvRecordChars sep (project.schema.map (fun f => f.name.toList))
    ++ '\n' :: joinSep '\n'
        (project.rows.map (fun row =>
          csvRecordChars sep (project.schema.map (fun f => (csvCellString f row).toList))))

/-! ### A quote-aware CSV reader, used to state line/field-count claims.
This is the measuring instrument for the spec's "lines" and
"separator-delimited fields (honoring quoting)". -/

/-- Scanner mode: outside quotes, inside quotes, or just after a closing
quote (where a further quote means an escaped quote character). -/
inductive CsvMode
  | normal
  | quoted
  | closed
  deriving DecidableEq

/-- Quote-aware CSV scanner.  `fld` is the field collected so far, `rec`
the fields of the current record; every newline outside quotes separates
records and the end of input flushes the current record. -/
def csvScan (sep : Char) : CsvMode → List Char → List (List Char) → List Char →
    List (List (List Char))
  | _, fld, rec, [] => [rec ++ [fld]]
  | .normal, fld, rec, c :: cs =>
      if c = '"' then csvScan sep .quoted fld rec cs
      else if c = sep then csvScan sep .normal [] (rec ++ [fld]) cs
      else if c = '\n' then (rec ++ [fld]) :: csvScan sep .normal [] [] cs
      else csvScan sep .normal (fld ++ [c]) rec cs
  | .quoted, fld, rec, c :: cs =>
      if c = '"' then csvScan sep .closed fld rec cs
      else csvScan sep .quoted (fld ++ [c]) rec cs
  | .closed, fld, rec, c :: cs =>
      if c = '"' then csvScan sep .quoted (fld ++ ['"']) rec cs
      else if c = sep then csvScan sep .normal [] (rec ++ [fld]) cs
      else if c = '\n' then (rec ++ [fld]) :: csvScan sep .normal [] [] cs
      else csvScan sep .normal (fld ++ [c]) rec cs

/-- Parse a CSV document into its records of fields, honoring quoting. -/
def csvParse (sep : Char) (doc : List Char) : List (List (List Char)) :=
  csvScan sep .normal [] [] doc

/-! ### Project loading (src/App.tsx, handleLoadProject, lines 121-145) -/

/-- Parsed JSON values. -/
inductive Json
  | null
  | bool (b : Bool)
  | num (n : Int)
  | str (s : String)
  | arr (elems : List Json)
  | obj (fields : List (String × Json))

/-- JavaScript truthiness of a JSON value (arrays and objects, empty or
not, are truthy). -/
def Json.truthy : Json → Bool
  | .null => false
  | .bool b => b
  | .num n => n != 0
  | .str s => s != ""
  | .arr _ => true
  | .obj _ => true

/-- JS property read `data.k`: `undefined` (here `none`) on objects
missing the key and on all non-null primitives. -/
def Json.getKey : Json → String → Option Json
  | .obj fields, k => lookupKey fields k
  | _, _ => none

/-- JS property write `data.k = v` (a no-op on non-objects). -/
def Json.setKeyJ : Json → String → Json → Json
  | .obj fields, k, v => .obj (setKey fields k v)
  | j, _, _ => j

/-- Truthiness of a possibly-undefined property. -/
def truthyProp (o : Option Json) : Bool :=
  match o with
  | some j => j.truthy
  | none => false

/-- Outcome of handleLoadProject: replace the project state, or reject
with one of the two alert notices, leaving state untouched. -/
inductive LoadResult
  | ok (data : Json)
  | invalidFormat
  | parseError

/-- handleLoadProject after the file text is read: `parsed` is the result
of `JSON.parse` (`none` when parsing threw).  Property access on a parsed
`null` throws inside the same `try`, so it also lands on the
"Error parsing JSON file" branch.  When `data.schema && data.rows` holds,
falsy `groups`/`assetPrefix`/`csvSeparator` are backfilled and the object
replaces the state wholesale. -/
def handleLoadProject (parsed : Option Json) : LoadResult :=
  match parsed with
  | none => .parseError
  | some Json.null => .parseError
  | some data =>
      if truthyProp (data.getKey "schema") && truthyProp (data.getKey "rows") then
        let data := if truthyProp (data.getKey "groups") then data
                    else data.setKeyJ "groups" (.arr [])
        let data := if truthyProp (data.getKey "assetPrefix") then data
                    else data.setKeyJ "assetPrefix" (.str "")
        let data := if truthyProp (data.getKey "csvSeparator") then data
                    else data.setKeyJ "csvSeparator" (.str ",")
        .ok data
      else .invalidFormat

/-- The shell's resulting state: `setProject(data)` only on the ok path. -/
def applyLoadResult (current : Json) (r : LoadResult) : Json :=
  match r with
  | .ok data => data
  | .invalidFormat => current
  | .parseError => current

/-! ### Global asset-prefix change (src/App.tsx, handleGlobalPrefixChange,
lines 60-95) -/

/-- `row.__groupId ? prev.groups.find(g => g.id === row.__groupId) :
undefined` — note the truthiness test on `__groupId`. -/
def findRowGroup (groups : List GroupDefinition) (gid : Option String) :
    Option GroupDefinition :=
  match gid with
  | some g => if g != "" then groups.find? (fun gr => gr.id == g) else none
  | none => none

/-- The per-field body of the prefix rewrite: for an ImageFile field whose
cell is an object with a truthy `fileName`, set `filePath` to
`newPfx + fileName`. -/
def prefixRewriteStep (newPfx : String) (cells : List (String × CellValue))
    (field : FieldDefinition) : List (String × CellValue) :=
  if field.type = FieldType.ImageFile then
    match lookupCell cells field.id with
    | CellValue.file fv =>
        if truthyString fv.fileName then
          setKey cells field.id
            (CellValue.file { fv with filePath := some (newPfx ++ fv.fileName.getD "") })
        else cells
    | _ => cells
  else cells

/-- The row map inside handleGlobalPrefixChange: rows whose (truthily
resolved) group carries a non-nullish `assetPrefix` are returned as-is,
all other rows get every ImageFile object cell rewritten. -/
def prefixRewriteRow (schema : List FieldDefinition) (groups : List GroupDefinition)
    (newPfx : String) (row : RowData) : RowData :=
  match findRowGroup groups row.__groupId with
  | some g =>
      match g.assetPfx with
      | some _ => row
      | none => { row with cells := schema.foldl (prefixRewriteStep newPfx) row.cells }
  | none => { row with cells := schema.foldl (prefixRewriteStep newPfx) row.cells }

/-- handleGlobalPrefixChange: update the global prefix and rewrite the
rows as above. -/
def handleGlobalPrefixChange (p : ProjectData) (newPfx : String) : ProjectData :=
  { p with
    assetPfx := some newPfx,
    rows := p.rows.map (prefixRewriteRow p.schema p.groups newPfx) }

/-! ### Data editor row operations (src/components/DataEditor.tsx) -/

/-- addRow (lines 40-47): a fresh row tagged with the target group id,
every schema field seeded with `f.defaultValue || (f.type === Boolean ?
false : '')`, appended at the end. -/
def addRow (schema : List FieldDefinition) (rows : List RowData)
    (groupId : Option String) : List RowData :=
  let newRow : RowData :=
    { __groupId := groupId,
      cells := schema.foldl
        (fun cs f => setKey cs f.id
          (jsOr f.defaultValue
            (if f.type = FieldType.Boolean then CellValue.bool false
             else CellValue.str "")))
        [] }
  rows ++ [newRow]

/-- The indices of the rows whose `__groupId` equals `currentGroupId`
exactly — the `groupIndices` list of moveRowWithinGroup (lines 63-65). -/
def groupPositions (rows : List RowData) (currentGroupId : Option String) : List Nat :=
  (rows.enum.filter (fun p => p.2.__groupId == currentGroupId)).map (fun p => p.1)

/-- The in-place swap of two rows of the global row list (lines 76-79). -/
def swapRows (rows : List RowData) (i j : Nat) : List RowData :=
  (rows.set i (rows.getD j default)).set j (rows.getD i default)

/-- moveRowWithinGroup (lines 61-81).  `findIdx?` returning `none` models
`indexOf` returning `-1`. -/
def moveRowWithinGroup (rows : List RowData) (originalIndex : Nat) (direction : Int)
    (currentGroupId : Option String) : List RowData :=
  let groupIndices := groupPositions rows currentGroupId
  match groupIndices.findIdx? (fun k => k == originalIndex) with
  | none => rows
  | some currentGroupPos =>
      let targetGroupPos : Int := (currentGroupPos : Int) + direction
      if targetGroupPos < 0 ∨ (groupIndices.length : Int) ≤ targetGroupPos then rows
      else swapRows rows originalIndex (groupIndices.getD targetGroupPos.toNat 0)

/-! ### AI request schema mapping (src/services/geminiService.ts,
mapFieldTypeToGeminiType, lines 4-28) -/

/-- The structured-output value kinds used by the mapping. -/
inductive GeminiType
  | STRING
  | NUMBER
  | BOOLEAN
  deriving DecidableEq

/-- The per-field response schema sent to the model: a value kind, a
description, and an optional enumerated constraint. -/
structure GeminiSchema where
  type : GeminiType
  description : String
  enum : Option (List String) := none
  deriving DecidableEq

/-- `field.options?.join(', ')` — an absent list renders as the string
"undefined" inside the template literal. -/
def joinedOptions (o : Option (List String)) : String :=
  match o with
  | some os => String.intercalate ", " os
  | none => "undefined"

/-- `field.keyValueOptions?.map(o => o.value + " (" + o.key + ")").join(', ')`. -/
def joinedKeyValueOptions (o : Option (List (String × String))) : String :=
  match o with
  | some os => String.intercalate ", " (os.map (fun kv => kv.2 ++ " (" ++ kv.1 ++ ")"))
  | none => "undefined"

/-- mapFieldTypeToGeminiType exactly as shipped: the switch special-cases
Number, Boolean, Select, KeyValueSelect and the legacy unified Image type;
every other type (ImageURL and ImageFile included) falls to the default
branch described by the bare field name. -/
def mapFieldTypeToGeminiType (field : FieldDefinition) : GeminiSchema :=
  match field.type with
  | FieldType.Number => { type := .NUMBER, description := field.name }
  | FieldType.Boolean => { type := .BOOLEAN, description := field.name }
  | FieldType.Select =>
      { type := .STRING,
        description := field.name ++ " (Must be one of: " ++ joinedOptions field.options ++ ")",
        enum := field.options }
  | FieldType.KeyValueSelect =>
      { type := .STRING,
        description := field.name ++ " (Select the code/value that matches the description: "
          ++ joinedKeyValueOptions field.keyValueOptions ++ ")",
        enum := some ((field.keyValueOptions.getD []).map (fun kv => kv.2)) }
  | FieldType.Image =>
      { type := .STRING,
        description := "A creative visual description or URL for " ++ field.name }
  | _ => { type := .STRING, description := field.name }

/-! ### AI generation enrichment (src/App.tsx, handleAiGenerate,
lines 147-186) -/

/-- Whether a character survives encodeURIComponent unescaped
(ASCII letters, digits, and - _ . ! ~ * ' ( ) ). -/
def isUnreservedURIChar (c : Char) : Bool :=
  (c ≥ 'A' && c ≤ 'Z') || (c ≥ 'a' && c ≤ 'z') || (c ≥ '0' && c ≤ '9')
    || c = '-' || c = '_' || c = '.' || c = '!' || c = '~' || c = '*'
    || c.toNat = 39 || c = '(' || c = ')'

/-- The UTF-8 bytes of a character. -/
def utf8Bytes (c : Char) : List Nat :=
  let n := c.toNat
  if n < 128 then [n]
  else if n < 2048 then [192 + n / 64, 128 + n % 64]
  else if n < 65536 then [224 + n / 4096, 128 + (n / 64) % 64, 128 + n % 64]
  else [240 + n / 262144, 128 + (n / 4096) % 64, 128 + (n / 64) % 64, 128 + n % 64]

/-- An uppercase hexadecimal digit. -/
def hexDigit (n : Nat) : Char :=
  if n < 10 then Char.ofNat (48 + n) else Char.ofNat (55 + n)

/-- Percent-encoding of one byte. -/
def percentEncodeByte (b : Nat) : List Char :=
  ['%', hexDigit (b / 16), hexDigit (b % 16)]

/-- JavaScript encodeURIComponent. -/
def encodeURIComponent (s : String) : String :=
  String.mk (s.toList.foldr
    (fun c acc =>
      (if isUnreservedURIChar c then [c] else ((utf8Bytes c).map percentEncodeByte).flatten) ++ acc)
    [])

/-- The placeholder image URL template used by the enrichment. -/
def picsumUrl (seed : String) : String :=
  "https://picsum.photos/seed/" ++ encodeURIComponent seed ++ "/200/200"

/-- Character-list prefix test (the semantics of `String.startsWith`). -/
def charsPrefixOf : List Char → List Char → Bool
  | [], _ => true
  | _ :: _, [] => false
  | c :: cs, d :: ds => c == d && charsPrefixOf cs ds

/-- JavaScript `s.startsWith(pre)`. -/
def jsStartsWith (s pre : String) : Bool := charsPrefixOf pre.toList s.toList

/-- `enrichedItem[id]?.startsWith('http')` on the string-or-absent values
the response schema produces for image fields (optional chaining turns an
absent value into `undefined`, which is falsy). -/
def startsWithHttp : CellValue → Bool
  | CellValue.str s => jsStartsWith s "http"
  | _ => false

/-- The ImageFile placeholder object
`fileName: "placeholder.png", filePath: "placeholder.png", fileData: null`. -/
def placeholderFile : CellValue :=
  CellValue.file { fileName := some "placeholder.png",
                   filePath := some "placeholder.png",
                   fileData := none }

/-- The per-field enrichment body of handleAiGenerate (lines 156-174).
`randomTok id` models the `Math.random().toString(36).substring(7)` token
drawn while processing the field with that id.  The seed for ImageURL
fields is read from the original `generatedItem`, the guard from the
accumulating `enrichedItem`. -/
def enrichStep (generatedItem : List (String × CellValue)) (randomTok : String → String)
    (item : List (String × CellValue)) (field : FieldDefinition) :
    List (String × CellValue) :=
  let item :=
    if field.type = FieldType.ImageURL then
      let seed := jsOr (lookupCell generatedItem field.id) (CellValue.str (randomTok field.id))
      if !(startsWithHttp (lookupCell item field.id)) then
        setKey item field.id (CellValue.str (picsumUrl seed.toJsString))
      else item
    else item
  if field.type = FieldType.ImageFile then
    if !(lookupCell item field.id).truthy then
      setKey item field.id placeholderFile
    else
      match lookupCell item field.id with
      | CellValue.str name =>
          setKey item field.id
            (CellValue.file { fileName := some name, filePath := some name, fileData := none })
      | _ => item
  else item

/-- The enrichment pass over the whole schema. -/
def enrichGeneratedItem (schema : List FieldDefinition) (randomTok : String → String)
    (generatedItem : List (String × CellValue)) : List (String × CellValue) :=
  schema.foldl (enrichStep generatedItem randomTok) generatedItem

/-- The successful tail of handleAiGenerate: the enriched item is appended
to the row list (`handleRowsChange([...project.rows, enrichedItem])`). -/
def handleAiGenerate (p : ProjectData) (randomTok : String → String)
    (generatedItem : List (String × CellValue)) : ProjectData :=
  { p with rows := p.rows ++
      [{ __groupId := none, cells := enrichGeneratedItem p.schema randomTok generatedItem }] }

/-! ### Association-list lemmas -/

theorem lookupKey_setKey_self {α : Type} (l : List (String × α)) (k : String) (v : α) :
    lookupKey (setKey l k v) k = some v := by
  induction l with
  | nil => simp [setKey, lookupKey]
  | cons hd t ih =>
      obtain ⟨k', w⟩ := hd
      by_cases hk : k' = k
      · simp [setKey, hk, lookupKey]
      · simp [setKey, hk, lookupKey, ih]

theorem lookupKey_setKey_ne {α : Type} (l : List (String × α)) (k k' : String) (v : α)
    (h : k' ≠ k) : lookupKey (setKey l k v) k' = lookupKey l k' := by
  have h' : k ≠ k' := Ne.symm h
  induction l with
  | nil => simp [setKey, lookupKey, h']
  | cons hd t ih =>
      obtain ⟨k₀, w⟩ := hd
      by_cases hk : k₀ = k
      · subst hk
        simp [setKey, lookupKey, h']
      · simp only [setKey, if_neg hk, lookupKey]
        by_cases hk' : k₀ = k'
        · simp [hk']
        · simp [hk', ih]

theorem lookupCell_setKey_self (l : List (String × CellValue)) (k : String) (v : CellValue) :
    lookupCell (setKey l k v) k = v := by
  simp [lookupCell, lookupKey_setKey_self]

theorem lookupCell_setKey_ne (l : List (String × CellValue)) (k k' : String) (v : CellValue)
    (h : k' ≠ k) : lookupCell (setKey l k v) k' = lookupCell l k' := by
  simp [lookupCell, lookupKey_setKey_ne _ _ _ _ h]

/-! ### Per-key behaviour of schema folds

Each of the row-building folds (global prefix rewrite, addRow seeding, AI
enrichment) processes the schema field by field, touching only the
property named by the field's id.  The two lemmas below capture the
resulting per-key reads. -/

/-- Keys that belong to no processed field are untouched by the fold. -/
theorem foldl_lookupCell_not_mem
    (step : List (String × CellValue) → FieldDefinition → List (String × CellValue))
    (hother : ∀ item f k, k ≠ f.id → lookupCell (step item f) k = lookupCell item k)
    (schema : List FieldDefinition) (init : List (String × CellValue)) (k : String)
    (hk : ∀ f ∈ schema, f.id ≠ k) :
    lookupCell (schema.foldl step init) k = lookupCell init k := by
  induction schema generalizing init with
  | nil => rfl
  | cons f rest ih =>
      have h1 : lookupCell (step init f) k = lookupCell init k :=
        hother init f k (fun h => hk f (by simp) h.symm)
      simpa [List.foldl_cons, h1] using ih (step init f) (fun g hg => hk g (by simp [hg]))

/-- For a field with a schema-unique id, the fold's read at that id equals
the read after that field's own step, applied to the initial cells. -/
theorem foldl_lookupCell_mem
    (step : List (String × CellValue) → FieldDefinition → List (String × CellValue))
    (hother : ∀ item f k, k ≠ f.id → lookupCell (step item f) k = lookupCell item k)
    (schema : List FieldDefinition) (hnd : (schema.map FieldDefinition.id).Nodup)
    (init : List (String × CellValue)) (f : FieldDefinition) (hf : f ∈ schema)
    (hdep : ∀ a b, lookupCell a f.id = lookupCell b f.id →
      lookupCell (step a f) f.id = lookupCell (step b f) f.id) :
    lookupCell (schema.foldl step init) f.id = lookupCell (step init f) f.id := by
  induction schema generalizing init with
  | nil => cases hf
  | cons g rest ih =>
      rw [List.map_cons, List.nodup_cons] at hnd
      rcases List.mem_cons.mp hf with hfg | hfr
      · subst hfg
        have : ∀ h ∈ rest, h.id ≠ f.id := by
          intro h hh heq
          exact hnd.1 (heq ▸ List.mem_map_of_mem FieldDefinition.id hh)
        simpa [List.foldl_cons] using
          foldl_lookupCell_not_mem step hother rest (step init f) f.id this
      · have hne : f.id ≠ g.id := by
          intro heq
          exact hnd.1 (heq ▸ List.mem_map_of_mem FieldDefinition.id hfr)
        have h1 : lookupCell (step init g) f.id = lookupCell init f.id :=
          hother init g f.id hne
        have h2 := ih hnd.2 (step init g) hfr
        rw [List.foldl_cons, h2]
        exact hdep (step init g) init h1

/-! ### CSV scanner lemmas -/

theorem csvScan_nil (sep : Char) (m : CsvMode) (fld : List Char) (rec : List (List Char)) :
    csvScan sep m fld rec [] = [rec ++ [fld]] := by
  cases m <;> rfl

theorem csvScan_normal_quote (sep : Char) (fld : List Char) (rec : List (List Char))
    (cs : List Char) :
    csvScan sep .normal fld rec ('"' :: cs) = csvScan sep .quoted fld rec cs := by
  simp [csvScan]

theorem csvScan_normal_sep (sep : Char) (hq : sep ≠ '"') (fld : List Char)
    (rec : List (List Char)) (cs : List Char) :
    csvScan sep .normal fld rec (sep :: cs) = csvScan sep .normal [] (rec ++ [fld]) cs := by
  simp [csvScan, hq]

theorem csvScan_normal_nl (sep : Char) (hn : sep ≠ '\n') (fld : List Char)
    (rec : List (List Char)) (cs : List Char) :
    csvScan sep .normal fld rec ('\n' :: cs)
      = (rec ++ [fld]) :: csvScan sep .normal [] [] cs := by
  have h1 : ('\n' : Char) ≠ '"' := by decide
  have h2 : ('\n' : Char) ≠ sep := Ne.symm hn
  simp [csvScan, h1, h2]

theorem csvScan_normal_other (sep : Char) (c : Char) (h1 : c ≠ sep) (h2 : c ≠ '"')
    (h3 : c ≠ '\n') (fld : List Char) (rec : List (List Char)) (cs : List Char) :
    csvScan sep .normal fld rec (c :: cs) = csvScan sep .normal (fld ++ [c]) rec cs := by
  simp [csvScan, h1, h2, h3]

theorem csvScan_quoted_quote (sep : Char) (fld : List Char) (rec : List (List Char))
    (cs : List Char) :
    csvScan sep .quoted fld rec ('"' :: cs) = csvScan sep .closed fld rec cs := by
  simp [csvScan]

theorem csvScan_quoted_other (sep : Char) (c : Char) (h : c ≠ '"') (fld : List Char)
    (rec : List (List Char)) (cs : List Char) :
    csvScan sep .quoted fld rec (c :: cs) = csvScan sep .quoted (fld ++ [c]) rec cs := by
  simp [csvScan, h]

theorem csvScan_closed_quote (sep : Char) (fld : List Char) (rec : List (List Char))
    (cs : List Char) :
    csvScan sep .closed fld rec ('"' :: cs) = csvScan sep .quoted (fld ++ ['"']) rec cs := by
  simp [csvScan]

theorem csvScan_closed_sep (sep : Char) (hq : sep ≠ '"') (fld : List Char)
    (rec : List (List Char)) (cs : List Char) :
    csvScan sep .closed fld rec (sep :: cs) = csvScan sep .normal [] (rec ++ [fld]) cs := by
  simp [csvScan, hq]

theorem csvScan_closed_nl (sep : Char) (hn : sep ≠ '\n') (fld : List Char)
    (rec : List (List Char)) (cs : List Char) :
    csvScan sep .closed fld rec ('\n' :: cs)
      = (rec ++ [fld]) :: csvScan sep .normal [] [] cs := by
  have h1 : ('\n' : Char) ≠ '"' := by decide
  have h2 : ('\n' : Char) ≠ sep := Ne.symm hn
  simp [csvScan, h1, h2]

/-- Scanning an unquoted run of plain characters just accumulates them. -/
theorem csvScan_passthrough (sep : Char) (v : List Char)
    (hv : ∀ c ∈ v, c ≠ sep ∧ c ≠ '"' ∧ c ≠ '\n') (fld : List Char)
    (rec : List (List Char)) (rest : List Char) :
    csvScan sep .normal fld rec (v ++ rest) = csvScan sep .normal (fld ++ v) rec rest := by
  induction v generalizing fld with
  | nil => simp
  | cons c cs ih =>
      obtain ⟨h1, h2, h3⟩ := hv c (by simp)
      rw [List.cons_append, csvScan_normal_other sep c h1 h2 h3,
        ih (fun d hd => hv d (by simp [hd]))]
      simp

/-- Scanning quote-doubled content inside quotes accumulates the original
content and stops at the closing quote. -/
theorem csvScan_quoted_content (sep : Char) (v : List Char) (fld : List Char)
    (rec : List (List Char)) (rest : List Char) :
    csvScan sep .quoted fld rec (doubleQuotes v ++ '"' :: rest)
      = csvScan sep .closed (fld ++ v) rec rest := by
  induction v generalizing fld with
  | nil => simp [doubleQuotes, csvScan_quoted_quote]
  | cons c cs ih =>
      by_cases hc : c = '"'
      · subst hc
        rw [show doubleQuotes ('"' :: cs) = '"' :: '"' :: doubleQuotes cs from by
            simp [doubleQuotes]]
        rw [List.cons_append, List.cons_append, csvScan_quoted_quote, csvScan_closed_quote,
          ih]
        simp
      · rw [show doubleQuotes (c :: cs) = c :: doubleQuotes cs from by simp [doubleQuotes, hc]]
        rw [List.cons_append, csvScan_quoted_other sep c hc, ih]
        simp

/-- An unquoted field contains none of the three special characters. -/
theorem needsQuote_false_chars (sep : Char) (v : List Char) (h : needsQuote sep v = false) :
    ∀ c ∈ v, c ≠ sep ∧ c ≠ '"' ∧ c ≠ '\n' := by
  intro c hc
  simp only [needsQuote, Bool.or_eq_false_iff] at h
  have h1 : sep ∉ v := by simpa using h.1.1
  have h2 : ('"' : Char) ∉ v := by simpa using h.1.2
  have h3 : ('\n' : Char) ∉ v := by simpa using h.2
  exact ⟨fun e => h1 (e ▸ hc), fun e => h2 (e ▸ hc), fun e => h3 (e ▸ hc)⟩

/-- Scanning one escaped field followed by a separator. -/
theorem csvScan_field_sep (sep : Char) (hq : sep ≠ '"') (hn : sep ≠ '\n') (v : List Char)
    (rec : List (List Char)) (rest : List Char) :
    csvScan sep .normal [] rec (escapeCsvField sep v ++ sep :: rest)
      = csvScan sep .normal [] (rec ++ [v]) rest := by
  by_cases h : needsQuote sep v
  · rw [escapeCsvField, if_pos h, List.cons_append, csvScan_normal_quote, List.append_assoc]
    rw [show ['"'] ++ sep :: rest = '"' :: sep :: rest from rfl]
    rw [csvScan_quoted_content, List.nil_append, csvScan_closed_sep sep hq]
  · rw [escapeCsvField, if_neg h,
      csvScan_passthrough sep v (needsQuote_false_chars sep v (by simpa using h)),
      List.nil_append, csvScan_normal_sep sep hq]

/-- Scanning one escaped field followed by a record-ending newline. -/
theorem csvScan_field_nl (sep : Char) (hq : sep ≠ '"') (hn : sep ≠ '\n') (v : List Char)
    (rec : List (List Char)) (rest : List Char) :
    csvScan sep .normal [] rec (escapeCsvField sep v ++ '\n' :: rest)
      = (rec ++ [v]) :: csvScan sep .normal [] [] rest := by
  by_cases h : needsQuote sep v
  · rw [escapeCsvField, if_pos h, List.cons_append, csvScan_normal_quote, List.append_assoc]
    rw [show ['"'] ++ '\n' :: rest = '"' :: '\n' :: rest from rfl]
    rw [csvScan_quoted_content, List.nil_append, csvScan_closed_nl sep hn]
  · rw [escapeCsvField, if_neg h,
      csvScan_passthrough sep v (needsQuote_false_chars sep v (by simpa using h)),
      List.nil_append, csvScan_normal_nl sep hn]

/-- Scanning one escaped field at the end of the document. -/
theorem csvScan_field_eof (sep : Char) (hq : sep ≠ '"') (hn : sep ≠ '\n') (v : List Char)
    (rec : List (List Char)) :
    csvScan sep .normal [] rec (escapeCsvField sep v) = [rec ++ [v]] := by
  by_cases h : needsQuote sep v
  · rw [escapeCsvField, if_pos h, csvScan_normal_quote,
      show doubleQuotes v ++ ['"'] = doubleQuotes v ++ '"' :: [] from rfl,
      csvScan_quoted_content, List.nil_append, csvScan_nil]
  · rw [escapeCsvField, if_neg h]
    have hpass := csvScan_passthrough sep v (needsQuote_false_chars sep v (by simpa using h))
      [] rec []
    simpa [csvScan_nil] using hpass

/-- Scanning a whole escaped record followed by a newline yields exactly
its field values as one parsed record. -/
theorem csvScan_record_nl (sep : Char) (hq : sep ≠ '"') (hn : sep ≠ '\n')
    (vs : List (List Char)) (hvs : vs ≠ []) (rec : List (List Char)) (rest : List Char) :
    csvScan sep .normal [] rec (csvRecordChars sep vs ++ '\n' :: rest)
      = (rec ++ vs) :: csvScan sep .normal [] [] rest := by
  induction vs generalizing rec with
  | nil => cases hvs rfl
  | cons v vs ih =>
      cases vs with
      | nil =>
          rw [show csvRecordChars sep [v] = escapeCsvField sep v from rfl,
            csvScan_field_nl sep hq hn]
      | cons v' vs' =>
          rw [show csvRecordChars sep (v :: v' :: vs')
              = escapeCsvField sep v ++ sep :: csvRecordChars sep (v' :: vs') from by
                simp [csvRecordChars, joinSep],
            List.append_assoc,
            show (sep :: csvRecordChars sep (v' :: vs')) ++ '\n' :: rest
              = sep :: (csvRecordChars sep (v' :: vs') ++ '\n' :: rest) from rfl,
            csvScan_field_sep sep hq hn, ih (by simp)]
          simp

/-- Scanning a whole escaped record at the end of the document. -/
theorem csvScan_record_eof (sep : Char) (hq : sep ≠ '"') (hn : sep ≠ '\n')
    (vs : List (List Char)) (hvs : vs ≠ []) (rec : List (List Char)) :
    csvScan sep .normal [] rec (csvRecordChars sep vs) = [rec ++ vs] := by
  induction vs generalizing rec with
  | nil => cases hvs rfl
  | cons v vs ih =>
      cases vs with
      | nil =>
          rw [show csvRecordChars sep [v] = escapeCsvField sep v from rfl,
            csvScan_field_eof sep hq hn]
      | cons v' vs' =>
          rw [show csvRecordChars sep (v :: v' :: vs')
              = escapeCsvField sep v ++ sep :: csvRecordChars sep (v' :: vs') from by
                simp [csvRecordChars, joinSep],
            csvScan_field_sep sep hq hn, ih (by simp)]
          simp

/-- Parsing newline-joined escaped records recovers the records exactly. -/
theorem csvParse_joined (sep : Char) (hq : sep ≠ '"') (hn : sep ≠ '\n')
    (valss : List (List (List Char))) (hne : valss ≠ [])
    (hall : ∀ vs ∈ valss, vs ≠ []) :
    csvParse sep (joinSep '\n' (valss.map (csvRecordChars sep))) = valss := by
  induction valss with
  | nil => cases hne rfl
  | cons vs valss ih =>
      cases valss with
      | nil =>
          show csvScan sep .normal [] [] (csvRecordChars sep vs) = [vs]
          simpa using csvScan_record_eof sep hq hn vs (hall vs (by simp)) []
      | cons vs' valss' =>
          show csvScan sep .normal [] []
              (csvRecordChars sep vs ++ '\n' ::
                joinSep '\n' ((vs' :: valss').map (csvRecordChars sep))) = _
          rw [csvScan_record_nl sep hq hn vs (hall vs (by simp)) []]
          have := ih (by simp) (fun u hu => hall u (by simp [hu]))
          rw [show csvScan sep CsvMode.normal [] []
              (joinSep '\n' ((vs' :: valss').map (csvRecordChars sep)))
            = csvParse sep (joinSep '\n' ((vs' :: valss').map (csvRecordChars sep))) from rfl,
            this]
          simp

/-- For a project with at least one row, exportToCsv is the newline-join of
the header record and the data records. -/
theorem exportToCsv_eq_joined (p : ProjectData) (sep : Char) (hrows : p.rows ≠ []) :
    exportToCsv p sep
      = joinSep '\n'
          (((p.schema.map (fun f => f.name.toList))
            :: p.rows.map (fun row => p.schema.map (fun f => (csvCellString f row).toList))).map
            (csvRecordChars sep)) := by
  cases hr : p.rows with
  | nil => cases hrows hr
  | cons r rest =>
      simp only [exportToCsv, hr, List.map_cons, joinSep, List.map_map, Function.comp_def]

/-- The parsed content of an exported document: header names first, then
one record of cell strings per row, in order. -/
theorem csvParse_exportToCsv (p : ProjectData) (sep : Char) (hq : sep ≠ '"')
    (hn : sep ≠ '\n') (hschema : p.schema ≠ []) (hrows : p.rows ≠ []) :
    csvParse sep (exportToCsv p sep)
      = (p.schema.map (fun f => f.name.toList))
        :: p.rows.map (fun row => p.schema.map (fun f => (csvCellString f row).toList)) := by
  rw [exportToCsv_eq_joined p sep hrows]
  apply csvParse_joined sep hq hn _ (by simp)
  intro vs hvs
  rcases List.mem_cons.mp hvs with h | h
  · subst h
    simpa using hschema
  · obtain ⟨row, _, hrow⟩ := List.mem_map.mp h
    subst hrow
    simpa using hschema

/-- C3 (amended): for every project with at least one schema field and at
least one row and either configured separator, CSV export produces exactly
N+1 quote-aware lines, each with exactly M separator-delimited fields, and
the first line holds the schema's field display names in schema order.
(With zero rows the trailing newline adds one empty extra line, and with
zero fields every line still holds one empty field.) -/
theorem c3_csv_line_and_field_counts (p : ProjectData) (sep : Char)
    (hsep : sep = ',' ∨ sep = ';') (hschema : p.schema ≠ []) (hrows : p.rows ≠ []) :
    (csvParse sep (exportToCsv p sep)).length = p.rows.length + 1
    ∧ (∀ rec ∈ csvParse sep (exportToCsv p sep), rec.length = p.schema.length)
    ∧ (csvParse sep (exportToCsv p sep)).head?
        = some (p.schema.map (fun f => f.name.toList)) := by
  have hq : sep ≠ '"' := by rcases hsep with h | h <;> (subst h; decide)
  have hn : sep ≠ '\n' := by rcases hsep with h | h <;> (subst h; decide)
  rw [csvParse_exportToCsv p sep hq hn hschema hrows]
  refine ⟨by simp, ?_, by simp⟩
  intro rec hrec
  rcases List.mem_cons.mp hrec with h | h
  · subst h; simp
  · obtain ⟨row, _, hrow⟩ := List.mem_map.mp h
    subst hrow; simp

/-- C3 counterexample: with an empty schema each exported line still
contains one (empty) field rather than zero, and with zero rows the
document's trailing newline parses as one extra empty line, so the claim
fails as stated for M = 0 and for N = 0. -/
theorem c3_counterexample :
    (((csvParse ','
        (exportToCsv
          { name := "p", schema := [], groups := [],
            rows := [{ __groupId := none, cells := [] }] } ',')).getD 0 []).length
      ≠ ([] : List FieldDefinition).length)
    ∧ ((csvParse ','
        (exportToCsv
          { name := "q",
            schema := [{ id := "1", name := "Name", type := FieldType.Text }],
            groups := [], rows := [] } ',')).length
      ≠ ([] : List RowData).length + 1) := by
  constructor <;> decide

/-- C4 (amended): headers and values are quote-wrapped with internal
quotes doubled exactly when they contain the active separator, a double
quote, or a newline; in particular a value containing a comma but neither
semicolon nor quote nor newline exports unquoted under `;` and quoted
under `,`.  (A comma-bearing value that also contains the semicolon, a
quote, or a newline is quoted under `;` as well.) -/
theorem c4_quoting_rule :
    (∀ (sep : Char) (s : List Char),
      escapeCsvField sep s = '"' :: (doubleQuotes s ++ ['"'])
        ↔ (sep ∈ s ∨ '"' ∈ s ∨ '\n' ∈ s))
    ∧ (∀ v : String, ',' ∈ v.toList → ';' ∉ v.toList → '"' ∉ v.toList → '\n' ∉ v.toList →
        exportToCsv
            { name := "p",
              schema := [{ id := "1", name := "A", type := FieldType.Text }],
              groups := [],
              rows := [{ __groupId := none, cells := [("1", CellValue.str v)] }] } ';'
          = "A".toList ++ '\n' :: v.toList
        ∧ exportToCsv
            { name := "p",
              schema := [{ id := "1", name := "A", type := FieldType.Text }],
              groups := [],
              rows := [{ __groupId := none, cells := [("1", CellValue.str v)] }] } ','
          = "A".toList ++ '\n' :: ('"' :: (doubleQuotes v.toList ++ ['"']))) := by
  constructor
  · intro sep s
    have hmem : needsQuote sep s = true ↔ (sep ∈ s ∨ '"' ∈ s ∨ '\n' ∈ s) := by
      simp [needsQuote, or_assoc]
    constructor
    · intro he
      by_cases h : needsQuote sep s
      · exact hmem.mp h
      · rw [escapeCsvField, if_neg h] at he
        exact Or.inr (Or.inl (he ▸ List.mem_cons_self '"' _))
    · intro hc
      rw [escapeCsvField, if_pos (hmem.mpr hc)]
  · intro v h1 h2 h3 h4
    have hsemi : needsQuote ';' v.data = false := by
      simp only [needsQuote, Bool.or_eq_false_iff]
      refine ⟨⟨?_, ?_⟩, ?_⟩ <;> simpa
    have hcomma : needsQuote ',' v.data = true := by
      simp only [needsQuote, Bool.or_eq_true]
      exact Or.inl (Or.inl (by simpa using h1))
    constructor
    · simp only [exportToCsv, List.map_cons, List.map_nil, csvRecordChars, joinSep,
        csvCellString, RowData.get, lookupKey, CellValue.toJsString]
      rw [show escapeCsvField ';' "A".toList = "A".toList from by decide]
      simp [escapeCsvField, hsemi]
    · simp only [exportToCsv, List.map_cons, List.map_nil, csvRecordChars, joinSep,
        csvCellString, RowData.get, lookupKey, CellValue.toJsString]
      rw [show escapeCsvField ',' "A".toList = "A".toList from by decide]
      simp [escapeCsvField, hcomma]

/-- C4 counterexample: the value ",;" contains a comma, yet exporting it
with separator `;` quotes it (it also contains the active separator), so
the claim's "for any value containing a comma" clause is false as
stated. -/
theorem c4_counterexample :
    ',' ∈ ",;".toList
    ∧ exportToCsv
        { name := "p",
          schema := [{ id := "1", name := "A", type := FieldType.Text }],
          groups := [],
          rows := [{ __groupId := none, cells := [("1", CellValue.str ",;")] }] } ';'
      ≠ "A".toList ++ '\n' :: ",;".toList := by
  constructor <;> decide

/-- C4 witness: the value "a,b" contains a comma and nothing else special,
so it exports unquoted under `;` and quoted under `,`. -/
theorem c4_witness :
    ',' ∈ "a,b".toList
    ∧ exportToCsv
        { name := "p",
          schema := [{ id := "1", name := "A", type := FieldType.Text }],
          groups := [],
          rows := [{ __groupId := none, cells := [("1", CellValue.str "a,b")] }] } ';'
      = "A".toList ++ '\n' :: "a,b".toList :=
  ⟨by decide,
    (c4_quoting_rule.2 "a,b" (by decide) (by decide) (by decide) (by decide)).1⟩

/-- C5: for an ImageFile field the exported value is the cell's filePath
if non-empty, else its fileName if non-empty, else empty; the composite
object is never emitted as-is; and an absent (null/undefined) cell of any
field type exports as the empty string. -/
theorem c5_imagefile_export (field : FieldDefinition) (row : RowData) :
    (field.type = FieldType.ImageFile →
      ∀ fv, row.get field.id = CellValue.file fv →
        ((∀ pth, fv.filePath = some pth → pth ≠ "" → csvCellString field row = pth)
         ∧ ((fv.filePath = none ∨ fv.filePath = some "") →
             ((∀ n, fv.fileName = some n → n ≠ "" → csvCellString field row = n)
              ∧ ((fv.fileName = none ∨ fv.fileName = some "") →
                  csvCellString field row = "")))))
    ∧ ((row.get field.id = CellValue.undef ∨ row.get field.id = CellValue.null) →
        csvCellString field row = "") := by
  constructor
  · intro ht fv hfv
    have hval : csvCellString field row = fv.exportValue := by
      simp [csvCellString, hfv, ht, CellValue.toJsString]
    refine ⟨?_, ?_⟩
    · intro pth hp hne
      rw [hval, ImageFileValue.exportValue, if_pos (by simp [truthyString, hp, hne])]
      simp [hp]
    · intro hp
      have hpf : truthyString fv.filePath = false := by
        rcases hp with h | h <;> simp [truthyString, h]
      refine ⟨?_, ?_⟩
      · intro n hn hne
        rw [hval, ImageFileValue.exportValue, if_neg (by simp [hpf]),
          if_pos (by simp [truthyString, hn, hne])]
        simp [hn]
      · intro hn
        have hnf : truthyString fv.fileName = false := by
          rcases hn with h | h <;> simp [truthyString, h]
        rw [hval, ImageFileValue.exportValue, if_neg (by simp [hpf]),
          if_neg (by simp [hnf])]
  · intro h
    rcases h with h | h <;>
      · cases htf : field.type <;> simp [csvCellString, h, htf]

/-- C5 witness: a concrete ImageFile cell with a non-empty filePath
exports that path. -/
theorem c5_witness :
    csvCellString { id := "2", name := "Img", type := FieldType.ImageFile }
        { __groupId := none,
          cells := [("2", CellValue.file
            { fileName := some "b.png", filePath := some "a/b.png",
              fileData := none })] }
      = "a/b.png" :=
  ((c5_imagefile_export
      { id := "2", name := "Img", type := FieldType.ImageFile }
      { __groupId := none,
        cells := [("2", CellValue.file
          { fileName := some "b.png", filePath := some "a/b.png",
            fileData := none })] }).1
    rfl _ rfl).1 "a/b.png" rfl (by decide)

/-! ### Project-load lemmas -/

theorem truthyProp_getKey_obj (d : Json) (k : String)
    (h : truthyProp (d.getKey k) = true) : ∃ fs, d = Json.obj fs := by
  cases d with
  | obj fs => exact ⟨fs, rfl⟩
  | _ => simp [Json.getKey, truthyProp] at h

theorem backfill_getKey_other (d : Json) (key : String) (v : Json) (k : String)
    (hk : k ≠ key) :
    (if truthyProp (d.getKey key) then d else d.setKeyJ key v).getKey k = d.getKey k := by
  split
  · rfl
  · cases d with
    | obj fs => simp [Json.setKeyJ, Json.getKey, lookupKey_setKey_ne _ _ _ _ hk]
    | _ => rfl

theorem backfill_getKey_self_truthy (d : Json) (key : String) (v : Json)
    (h : truthyProp (d.getKey key) = true) :
    (if truthyProp (d.getKey key) then d else d.setKeyJ key v).getKey key = d.getKey key := by
  simp [h]

theorem backfill_getKey_self_falsy (fs : List (String × Json)) (key : String) (v : Json)
    (h : truthyProp ((Json.obj fs).getKey key) = false) :
    (if truthyProp ((Json.obj fs).getKey key) then Json.obj fs
     else (Json.obj fs).setKeyJ key v).getKey key = some v := by
  simp only [Json.getKey] at h
  simp [h, Json.setKeyJ, Json.getKey, lookupKey_setKey_self]

theorem backfill_obj (fs : List (String × Json)) (key : String) (v : Json) :
    ∃ fs2, (if truthyProp ((Json.obj fs).getKey key) then Json.obj fs
            else (Json.obj fs).setKeyJ key v) = Json.obj fs2 := by
  split
  · exact ⟨fs, rfl⟩
  · exact ⟨setKey fs key v, rfl⟩

/-- C1 (amended): load parses the file text as JSON; a parse failure (and
a parsed top-level null, whose property access throws in the same handler)
raises "Error parsing JSON file" with state unchanged; a parsed value
without truthy `schema` and `rows` properties is rejected with
"Invalid project file format" and state unchanged — empty arrays are
truthy, so a project with empty schema/rows lists is accepted; on success,
falsy `groups`/`assetPrefix`/`csvSeparator` are backfilled to
`[]`/`''`/`','`, every other property is kept, and the object replaces the
state in full. -/
theorem c1_load_project :
    handleLoadProject none = LoadResult.parseError
    ∧ handleLoadProject (some Json.null) = LoadResult.parseError
    ∧ (∀ d : Json, d ≠ Json.null →
        ¬(truthyProp (d.getKey "schema") = true ∧ truthyProp (d.getKey "rows") = true) →
        handleLoadProject (some d) = LoadResult.invalidFormat)
    ∧ (∀ d : Json,
        truthyProp (d.getKey "schema") = true → truthyProp (d.getKey "rows") = true →
        ∃ d2, handleLoadProject (some d) = LoadResult.ok d2
          ∧ (∀ k, k ≠ "groups" → k ≠ "assetPrefix" → k ≠ "csvSeparator" →
              d2.getKey k = d.getKey k)
          ∧ (truthyProp (d.getKey "groups") = true →
              d2.getKey "groups" = d.getKey "groups")
          ∧ (truthyProp (d.getKey "groups") = false →
              d2.getKey "groups" = some (Json.arr []))
          ∧ (truthyProp (d.getKey "assetPrefix") = true →
              d2.getKey "assetPrefix" = d.getKey "assetPrefix")
          ∧ (truthyProp (d.getKey "assetPrefix") = false →
              d2.getKey "assetPrefix" = some (Json.str ""))
          ∧ (truthyProp (d.getKey "csvSeparator") = true →
              d2.getKey "csvSeparator" = d.getKey "csvSeparator")
          ∧ (truthyProp (d.getKey "csvSeparator") = false →
              d2.getKey "csvSeparator" = some (Json.str ",")))
    ∧ (∀ cur : Json, applyLoadResult cur LoadResult.invalidFormat = cur
        ∧ applyLoadResult cur LoadResult.parseError = cur) := by
  refine ⟨rfl, rfl, ?_, ?_, fun cur => ⟨rfl, rfl⟩⟩
  · intro d hnull hcond
    have hb : (truthyProp (d.getKey "schema") && truthyProp (d.getKey "rows")) = false := by
      cases hx : truthyProp (d.getKey "schema") <;>
        cases hy : truthyProp (d.getKey "rows") <;> simp_all
    cases d with
    | null => cases hnull rfl
    | bool b => simp [handleLoadProject, hb]
    | num n => simp [handleLoadProject, hb]
    | str s => simp [handleLoadProject, hb]
    | arr xs => simp [handleLoadProject, hb]
    | obj fs => simp [handleLoadProject, hb]
  · intro d hs hr
    obtain ⟨fs, rfl⟩ := truthyProp_getKey_obj d "schema" hs
    set d0 : Json := Json.obj fs with hd0
    set d1 : Json :=
      if truthyProp (d0.getKey "groups") then d0 else d0.setKeyJ "groups" (Json.arr [])
      with hd1
    obtain ⟨fs1, hfs1⟩ := backfill_obj fs "groups" (Json.arr [])
    set d2 : Json :=
      if truthyProp (d1.getKey "assetPrefix") then d1
      else d1.setKeyJ "assetPrefix" (Json.str "") with hd2
    have hd1o : d1 = Json.obj fs1 := hfs1
    obtain ⟨fs2, hfs2⟩ : ∃ g, d2 = Json.obj g := by
      rw [hd2, hd1o]
      exact backfill_obj fs1 "assetPrefix" (Json.str "")
    set d3 : Json :=
      if truthyProp (d2.getKey "csvSeparator") then d2
      else d2.setKeyJ "csvSeparator" (Json.str ",") with hd3
    obtain ⟨fs3, hfs3⟩ : ∃ g, d3 = Json.obj g := by
      rw [hd3, hfs2]
      exact backfill_obj fs2 "csvSeparator" (Json.str ",")
    refine ⟨d3, ?_, ?_, ?_, ?_, ?_, ?_, ?_, ?_⟩
    · show handleLoadProject (some (Json.obj fs)) = LoadResult.ok d3
      simp only [handleLoadProject, hs, hr, Bool.and_self, if_pos]
    · intro k hk1 hk2 hk3
      rw [hd3, backfill_getKey_other d2 "csvSeparator" _ k hk3,
        hd2, backfill_getKey_other d1 "assetPrefix" _ k hk2,
        hd1, backfill_getKey_other d0 "groups" _ k hk1]
    · intro ht
      rw [hd3, backfill_getKey_other d2 "csvSeparator" _ _ (by decide),
        hd2, backfill_getKey_other d1 "assetPrefix" _ _ (by decide),
        hd1, backfill_getKey_self_truthy d0 "groups" _ ht]
    · intro hf
      rw [hd3, backfill_getKey_other d2 "csvSeparator" _ _ (by decide),
        hd2, backfill_getKey_other d1 "assetPrefix" _ _ (by decide),
        hd1]
      exact backfill_getKey_self_falsy fs "groups" (Json.arr []) hf
    · intro ht
      have ht1 : truthyProp (d1.getKey "assetPrefix") = true := by
        rwa [hd1, backfill_getKey_other d0 "groups" _ _ (by decide)]
      rw [hd3, backfill_getKey_other d2 "csvSeparator" _ _ (by decide),
        hd2, backfill_getKey_self_truthy d1 "assetPrefix" _ ht1,
        hd1, backfill_getKey_other d0 "groups" _ _ (by decide)]
    · intro hf
      have hf1 : truthyProp (d1.getKey "assetPrefix") = false := by
        rwa [hd1, backfill_getKey_other d0 "groups" _ _ (by decide)]
      rw [hd3, backfill_getKey_other d2 "csvSeparator" _ _ (by decide), hd2, hd1o]
      exact backfill_getKey_self_falsy fs1 "assetPrefix" (Json.str "")
        (by rwa [← hd1o])
    · intro ht
      have ht2 : truthyProp (d2.getKey "csvSeparator") = true := by
        rwa [hd2, backfill_getKey_other d1 "assetPrefix" _ _ (by decide),
          hd1, backfill_getKey_other d0 "groups" _ _ (by decide)]
      rw [hd3, backfill_getKey_self_truthy d2 "csvSeparator" _ ht2,
        hd2, backfill_getKey_other d1 "assetPrefix" _ _ (by decide),
        hd1, backfill_getKey_other d0 "groups" _ _ (by decide)]
    · intro hf
      have hf2 : truthyProp (d2.getKey "csvSeparator") = false := by
        rwa [hd2, backfill_getKey_other d1 "assetPrefix" _ _ (by decide),
          hd1, backfill_getKey_other d0 "groups" _ _ (by decide)]
      rw [hd3, hfs2]
      exact backfill_getKey_self_falsy fs2 "csvSeparator" (Json.str ",")
        (by rwa [← hfs2])

/-- C1 counterexample: a project file whose `schema` and `rows` are empty
arrays is accepted and replaces the state (empty arrays are truthy), even
though the claim requires non-empty `schema`/`rows` for acceptance. -/
theorem c1_counterexample :
    handleLoadProject (some (Json.obj [("schema", Json.arr []), ("rows", Json.arr [])]))
      = LoadResult.ok (Json.obj
          [("schema", Json.arr []), ("rows", Json.arr []), ("groups", Json.arr []),
           ("assetPrefix", Json.str ""), ("csvSeparator", Json.str ",")])
    ∧ handleLoadProject (some (Json.obj [("schema", Json.arr []), ("rows", Json.arr [])]))
      ≠ LoadResult.invalidFormat :=
  ⟨rfl, fun h => LoadResult.noConfusion h⟩

/-- C1 witness: a well-formed minimal file with truthy schema and rows is
accepted, and the failure outcomes leave the state unchanged. -/
theorem c1_witness :
    truthyProp ((Json.obj [("schema", Json.arr [Json.str "f"]),
        ("rows", Json.arr [Json.obj []])]).getKey "schema") = true
    ∧ (∃ d2, handleLoadProject (some (Json.obj [("schema", Json.arr [Json.str "f"]),
        ("rows", Json.arr [Json.obj []])])) = LoadResult.ok d2
        ∧ d2.getKey "groups" = some (Json.arr [])) :=
  ⟨rfl, by
    obtain ⟨d2, h1, _, _, h4, _⟩ := c1_load_project.2.2.2.1
      (Json.obj [("schema", Json.arr [Json.str "f"]), ("rows", Json.arr [Json.obj []])])
      rfl rfl
    exact ⟨d2, h1, h4 rfl⟩⟩

/-! ### Global prefix-change lemmas -/

theorem rows_map_getD (rows : List RowData) (g : RowData → RowData) (i : Nat)
    (hi : i < rows.length) :
    (rows.map g).getD i default = g (rows.getD i default) := by
  rw [List.getD_eq_getElem?_getD, List.getElem?_map, List.getD_eq_getElem?_getD,
    List.getElem?_eq_getElem hi]
  simp

theorem RowData.get_eq_lookupCell (r : RowData) (k : String) :
    r.get k = lookupCell r.cells k := rfl

theorem find?_id_unique (groups : List GroupDefinition)
    (hgnd : (groups.map GroupDefinition.id).Nodup) (g : GroupDefinition)
    (hg : g ∈ groups) : groups.find? (fun gr => gr.id == g.id) = some g := by
  induction groups with
  | nil => cases hg
  | cons x rest ih =>
      rw [List.map_cons, List.nodup_cons] at hgnd
      rcases List.mem_cons.mp hg with rfl | hgr
      · simp
      · have hne : x.id ≠ g.id :=
          fun he => hgnd.1 (he ▸ List.mem_map_of_mem GroupDefinition.id hgr)
        rw [List.find?_cons_of_neg _ (by simpa using hne), ih hgnd.2 hgr]

theorem findRowGroup_some (groups : List GroupDefinition) (gid : Option String)
    (g0 : GroupDefinition) (h : findRowGroup groups gid = some g0) :
    g0 ∈ groups ∧ gid = some g0.id := by
  cases gid with
  | none => cases h
  | some s =>
      simp only [findRowGroup] at h
      by_cases hs : s = ""
      · rw [if_neg (by simp [hs])] at h
        cases h
      · rw [if_pos (by simpa using hs)] at h
        have hp : g0.id = s := by simpa using List.find?_some h
        exact ⟨List.mem_of_find?_eq_some h, by rw [hp]⟩

theorem findRowGroup_mem (groups : List GroupDefinition)
    (hgid : ∀ g ∈ groups, g.id ≠ "")
    (hgnd : (groups.map GroupDefinition.id).Nodup) (g : GroupDefinition)
    (hg : g ∈ groups) : findRowGroup groups (some g.id) = some g := by
  simp only [findRowGroup]
  rw [if_pos (by simpa using hgid g hg)]
  exact find?_id_unique groups hgnd g hg

theorem prefixRewriteStep_other (P : String) (cells : List (String × CellValue))
    (f : FieldDefinition) (k : String) (hk : k ≠ f.id) :
    lookupCell (prefixRewriteStep P cells f) k = lookupCell cells k := by
  unfold prefixRewriteStep
  repeat' split
  all_goals first
    | rfl
    | exact lookupCell_setKey_ne _ _ _ _ hk

theorem prefixRewriteStep_dep (P : String) (f : FieldDefinition)
    (a b : List (String × CellValue)) (h : lookupCell a f.id = lookupCell b f.id) :
    lookupCell (prefixRewriteStep P a f) f.id = lookupCell (prefixRewriteStep P b f) f.id := by
  unfold prefixRewriteStep
  by_cases ht : f.type = FieldType.ImageFile
  · rw [if_pos ht, if_pos ht, ← h]
    cases hv : lookupCell a f.id with
    | file fv =>
        by_cases htr : truthyString fv.fileName = true
        · simp only [htr, if_true, lookupCell_setKey_self]
        · have htr2 : truthyString fv.fileName = false := by simpa using htr
          simp only [htr2, Bool.false_eq_true, if_false]
          exact h
    | undef => exact h
    | null => exact h
    | str s => exact h
    | bool v => exact h
    | num n => exact h
  · rw [if_neg ht, if_neg ht]
    exact h

theorem prefixRewrite_cells (schema : List FieldDefinition)
    (hnd : (schema.map FieldDefinition.id).Nodup) (P : String)
    (cells : List (String × CellValue)) (f : FieldDefinition) (hf : f ∈ schema) :
    lookupCell (schema.foldl (prefixRewriteStep P) cells) f.id
      = lookupCell (prefixRewriteStep P cells f) f.id :=
  foldl_lookupCell_mem (prefixRewriteStep P)
    (fun item g k hk => prefixRewriteStep_other P item g k hk) schema hnd cells f hf
    (fun a b hab => prefixRewriteStep_dep P f a b hab)

theorem prefixRewriteRow_override (schema : List FieldDefinition)
    (groups : List GroupDefinition) (P : String) (row : RowData)
    (g0 : GroupDefinition) (s : String)
    (hfg : findRowGroup groups row.__groupId = some g0) (hpfx : g0.assetPfx = some s) :
    prefixRewriteRow schema groups P row = row := by
  unfold prefixRewriteRow
  simp only [hfg, hpfx]

theorem prefixRewriteRow_no_override (schema : List FieldDefinition)
    (groups : List GroupDefinition) (P : String) (row : RowData)
    (h : ∀ g0, findRowGroup groups row.__groupId = some g0 → g0.assetPfx = none) :
    prefixRewriteRow schema groups P row
      = { row with cells := schema.foldl (prefixRewriteStep P) row.cells } := by
  unfold prefixRewriteRow
  cases hfg : findRowGroup groups row.__groupId with
  | none => rfl
  | some g0 => simp only [hfg, h g0 hfg]

/-- The lookup value of the rewrite fold at an ImageFile field, per cell
shape. -/
theorem prefixRewrite_cells_eval (schema : List FieldDefinition)
    (hnd : (schema.map FieldDefinition.id).Nodup) (P : String)
    (cells : List (String × CellValue)) (f : FieldDefinition) (hf : f ∈ schema)
    (ht : f.type = FieldType.ImageFile) :
    (∀ fv n, lookupCell cells f.id = CellValue.file fv → fv.fileName = some n → n ≠ "" →
      lookupCell (schema.foldl (prefixRewriteStep P) cells) f.id
        = CellValue.file { fv with filePath := some (P ++ n) })
    ∧ (∀ fv, lookupCell cells f.id = CellValue.file fv →
        (fv.fileName = none ∨ fv.fileName = some "") →
        lookupCell (schema.foldl (prefixRewriteStep P) cells) f.id
          = lookupCell cells f.id)
    ∧ (∀ s, lookupCell cells f.id = CellValue.str s →
        lookupCell (schema.foldl (prefixRewriteStep P) cells) f.id = CellValue.str s) := by
  refine ⟨?_, ?_, ?_⟩
  · intro fv n hv hn hne
    rw [prefixRewrite_cells schema hnd P cells f hf]
    unfold prefixRewriteStep
    rw [if_pos ht, hv]
    have htr : truthyString (some n) = true := by simp [truthyString, hne]
    simp only [hn, htr, if_true, lookupCell_setKey_self, Option.getD_some]
  · intro fv hv hn
    rw [prefixRewrite_cells schema hnd P cells f hf]
    unfold prefixRewriteStep
    rw [if_pos ht, hv]
    have htr : truthyString fv.fileName = false := by
      rcases hn with h | h <;> simp [truthyString, h]
    simp only [htr, Bool.false_eq_true, if_false, hv]
  · intro s hv
    rw [prefixRewrite_cells schema hnd P cells f hf]
    unfold prefixRewriteStep
    rw [if_pos ht, hv]
    exact hv

/-- Non-ImageFile fields and keys outside the schema are untouched by the
rewrite fold. -/
theorem prefixRewrite_cells_frame (schema : List FieldDefinition)
    (hnd : (schema.map FieldDefinition.id).Nodup) (P : String)
    (cells : List (String × CellValue)) :
    (∀ f ∈ schema, f.type ≠ FieldType.ImageFile →
      lookupCell (schema.foldl (prefixRewriteStep P) cells) f.id = lookupCell cells f.id)
    ∧ (∀ k, (∀ f ∈ schema, f.id ≠ k) →
        lookupCell (schema.foldl (prefixRewriteStep P) cells) k = lookupCell cells k) := by
  constructor
  · intro f hf ht
    rw [prefixRewrite_cells schema hnd P cells f hf]
    unfold prefixRewriteStep
    rw [if_neg ht]
  · intro k hk
    exact foldl_lookupCell_not_mem (prefixRewriteStep P)
      (fun item g kk hkk => prefixRewriteStep_other P item g kk hkk) schema cells k hk

/-- C2: under the data-model invariants (group ids nonempty and unique,
field ids unique), the global asset-prefix change sets assetPrefix to P;
every row whose group defines its own assetPrefix override (an explicitly
empty string included) is left entirely unchanged; every other row has
exactly its ImageFile object cells with a known (truthy) fileName
rewritten to filePath = P ++ fileName, while object cells without a known
fileName, legacy string cells, non-ImageFile fields and extraneous keys
are unchanged. -/
theorem c2_global_prefix_change (p : ProjectData) (P : String)
    (hgid : ∀ g ∈ p.groups, g.id ≠ "")
    (hgnd : (p.groups.map GroupDefinition.id).Nodup)
    (hsnd : (p.schema.map FieldDefinition.id).Nodup) :
    (handleGlobalPrefixChange p P).assetPfx = some P
    ∧ (handleGlobalPrefixChange p P).rows.length = p.rows.length
    ∧ (∀ i, i < p.rows.length →
        ((handleGlobalPrefixChange p P).rows.getD i default).__groupId
          = (p.rows.getD i default).__groupId
        ∧ (∀ g ∈ p.groups, (p.rows.getD i default).__groupId = some g.id →
            g.assetPfx ≠ none →
            (handleGlobalPrefixChange p P).rows.getD i default = p.rows.getD i default)
        ∧ ((∀ g ∈ p.groups, (p.rows.getD i default).__groupId = some g.id →
              g.assetPfx = none) →
            (∀ f ∈ p.schema,
              (f.type = FieldType.ImageFile →
                (∀ fv n, (p.rows.getD i default).get f.id = CellValue.file fv →
                  fv.fileName = some n → n ≠ "" →
                  ((handleGlobalPrefixChange p P).rows.getD i default).get f.id
                    = CellValue.file { fv with filePath := some (P ++ n) })
                ∧ (∀ fv, (p.rows.getD i default).get f.id = CellValue.file fv →
                    (fv.fileName = none ∨ fv.fileName = some "") →
                    ((handleGlobalPrefixChange p P).rows.getD i default).get f.id
                      = (p.rows.getD i default).get f.id)
                ∧ (∀ s, (p.rows.getD i default).get f.id = CellValue.str s →
                    ((handleGlobalPrefixChange p P).rows.getD i default).get f.id
                      = CellValue.str s))
              ∧ (f.type ≠ FieldType.ImageFile →
                  ((handleGlobalPrefixChange p P).rows.getD i default).get f.id
                    = (p.rows.getD i default).get f.id))
            ∧ (∀ k, (∀ f ∈ p.schema, f.id ≠ k) →
                ((handleGlobalPrefixChange p P).rows.getD i default).get k
                  = (p.rows.getD i default).get k))) := by
  refine ⟨rfl, by simp [handleGlobalPrefixChange], ?_⟩
  intro i hi
  have hmap : (handleGlobalPrefixChange p P).rows.getD i default
      = prefixRewriteRow p.schema p.groups P (p.rows.getD i default) :=
    rows_map_getD p.rows (prefixRewriteRow p.schema p.groups P) i hi
  refine ⟨?_, ?_, ?_⟩
  · rw [hmap]
    cases hfg : findRowGroup p.groups (p.rows.getD i default).__groupId with
    | none =>
        rw [prefixRewriteRow_no_override _ _ _ _
          (fun g0 h0 => by rw [hfg] at h0; cases h0)]
    | some g0 =>
        cases hpfx : g0.assetPfx with
        | some s =>
            rw [prefixRewriteRow_override p.schema p.groups P _ g0 s hfg hpfx]
        | none =>
            rw [prefixRewriteRow_no_override _ _ _ _
              (fun g1 h1 => by rw [hfg] at h1; cases h1; exact hpfx)]
  · intro g hg hgi hpfx
    rw [hmap]
    obtain ⟨s, hs⟩ := Option.ne_none_iff_exists'.mp hpfx
    exact prefixRewriteRow_override p.schema p.groups P _ g s (hgi ▸
      findRowGroup_mem p.groups hgid hgnd g hg) hs
  · intro hno
    have hrw : prefixRewriteRow p.schema p.groups P (p.rows.getD i default)
        = { p.rows.getD i default with
            cells := p.schema.foldl (prefixRewriteStep P) (p.rows.getD i default).cells } := by
      apply prefixRewriteRow_no_override
      intro g0 hfg
      obtain ⟨hm, hid⟩ := findRowGroup_some p.groups _ g0 hfg
      exact hno g0 hm hid
    rw [hmap, hrw]
    refine ⟨?_, ?_⟩
    · intro f hf
      have heval := prefixRewrite_cells_eval p.schema hsnd P
        (p.rows.getD i default).cells f hf
      have hframe := prefixRewrite_cells_frame p.schema hsnd P
        (p.rows.getD i default).cells
      refine ⟨fun ht => ⟨?_, ?_, ?_⟩, fun ht => ?_⟩
      · intro fv n hv hn hne
        exact (heval ht).1 fv n hv hn hne
      · intro fv hv hn
        exact (heval ht).2.1 fv hv hn
      · intro sv hv
        exact (heval ht).2.2 sv hv
      · exact hframe.1 f hf ht
    · intro k hk
      exact (prefixRewrite_cells_frame p.schema hsnd P
        (p.rows.getD i default).cells).2 k hk

/-- C2 witness: a two-row project where one row's group overrides the
prefix with the empty string (left untouched) and the other row is
ungrouped (rewritten to the new global prefix). -/
theorem c2_witness :
    (∀ g ∈ [({ id := "G", name := "grp", assetPfx := some "" } : GroupDefinition)],
        g.id ≠ "")
    ∧ ((handleGlobalPrefixChange
        { name := "p",
          schema := [{ id := "1", name := "Img", type := FieldType.ImageFile }],
          groups := [{ id := "G", name := "grp", assetPfx := some "" }],
          rows := [{ __groupId := some "G",
                     cells := [("1", CellValue.file
                       { fileName := some "a.png", filePath := some "old/a.png",
                         fileData := none })] },
                   { __groupId := none,
                     cells := [("1", CellValue.file
                       { fileName := some "b.png", filePath := some "old/b.png",
                         fileData := none })] }] } "new/").assetPfx = some "new/") :=
  ⟨by decide,
    (c2_global_prefix_change
      { name := "p",
        schema := [{ id := "1", name := "Img", type := FieldType.ImageFile }],
        groups := [{ id := "G", name := "grp", assetPfx := some "" }],
        rows := [{ __groupId := some "G",
                   cells := [("1", CellValue.file
                     { fileName := some "a.png", filePath := some "old/a.png",
                       fileData := none })] },
                 { __groupId := none,
                   cells := [("1", CellValue.file
                     { fileName := some "b.png", filePath := some "old/b.png",
                       fileData := none })] }] } "new/"
      (by decide) (by decide) (by decide)).1⟩

/-- C10: a row whose __groupId references no existing group is treated by
the global asset-prefix change exactly like an ungrouped row: its ImageFile
object cells with a known fileName are rewritten to the new global prefix
plus fileName, and the row keeps its dangling __groupId. -/
theorem c10_orphaned_group_rewrite (p : ProjectData) (P : String) (i : Nat)
    (gid : String) (hi : i < p.rows.length)
    (hg : (p.rows.getD i default).__groupId = some gid)
    (horphan : ∀ g ∈ p.groups, g.id ≠ gid)
    (hsnd : (p.schema.map FieldDefinition.id).Nodup) :
    ((handleGlobalPrefixChange p P).rows.getD i default).__groupId = some gid
    ∧ (∀ f ∈ p.schema, f.type = FieldType.ImageFile →
        ∀ fv n, (p.rows.getD i default).get f.id = CellValue.file fv →
          fv.fileName = some n → n ≠ "" →
          ((handleGlobalPrefixChange p P).rows.getD i default).get f.id
            = CellValue.file { fv with filePath := some (P ++ n) }) := by
  have hmap : (handleGlobalPrefixChange p P).rows.getD i default
      = prefixRewriteRow p.schema p.groups P (p.rows.getD i default) :=
    rows_map_getD p.rows (prefixRewriteRow p.schema p.groups P) i hi
  have hfg : findRowGroup p.groups (p.rows.getD i default).__groupId = none := by
    rw [hg]
    simp only [findRowGroup]
    by_cases hgid : gid = ""
    · rw [if_neg (by simp [hgid])]
    · rw [if_pos (by simpa using hgid)]
      exact List.find?_eq_none.mpr
        (fun g hgm => by simpa using horphan g hgm)
  have hrw : prefixRewriteRow p.schema p.groups P (p.rows.getD i default)
      = { p.rows.getD i default with
          cells := p.schema.foldl (prefixRewriteStep P) (p.rows.getD i default).cells } :=
    prefixRewriteRow_no_override _ _ _ _ (fun g0 h0 => by rw [hfg] at h0; cases h0)
  refine ⟨by rw [hmap, hrw]; exact hg, ?_⟩
  intro f hf ht fv n hv hn hne
  rw [hmap, hrw]
  exact (prefixRewrite_cells_eval p.schema hsnd P
    (p.rows.getD i default).cells f hf ht).1 fv n hv hn hne

/-- C10 witness: a single row referencing the nonexistent group "ghost" is
rewritten to the new global prefix. -/
theorem c10_witness :
    (0 : Nat) < 1
    ∧ ((handleGlobalPrefixChange
        { name := "p",
          schema := [{ id := "1", name := "Img", type := FieldType.ImageFile }],
          groups := [],
          rows := [{ __groupId := some "ghost",
                     cells := [("1", CellValue.file
                       { fileName := some "a.png", filePath := some "old/a.png",
                         fileData := none })] }] } "new/").rows.getD 0
          default).__groupId = some "ghost" :=
  ⟨by decide,
    (c10_orphaned_group_rewrite
      { name := "p",
        schema := [{ id := "1", name := "Img", type := FieldType.ImageFile }],
        groups := [],
        rows := [{ __groupId := some "ghost",
                   cells := [("1", CellValue.file
                     { fileName := some "a.png", filePath := some "old/a.png",
                       fileData := none })] }] } "new/" 0 "ghost"
      (by decide) rfl (by simp) (by decide)).1⟩

/-- C6 (amended): addRow appends one new row at the end, tagged with the
target group id (or none when ungrouped); each schema field is seeded with
its defaultValue when that value is present AND truthy; a missing or falsy
defaultValue (false, 0, empty string, null) falls back to `false` for
Boolean fields and the empty string otherwise. -/
theorem c6_add_row (schema : List FieldDefinition) (rows : List RowData)
    (gid : Option String) (hnd : (schema.map FieldDefinition.id).Nodup) :
    ∃ nr, addRow schema rows gid = rows ++ [nr]
      ∧ nr.__groupId = gid
      ∧ ∀ f ∈ schema,
          (f.defaultValue.truthy = true → nr.get f.id = f.defaultValue)
          ∧ (f.defaultValue.truthy = false →
              nr.get f.id = (if f.type = FieldType.Boolean then CellValue.bool false
                             else CellValue.str "")) := by
  refine ⟨_, rfl, rfl, ?_⟩
  intro f hf
  have hstep := foldl_lookupCell_mem
    (fun cs g => setKey cs g.id (jsOr g.defaultValue
      (if g.type = FieldType.Boolean then CellValue.bool false else CellValue.str "")))
    (fun item g k hk => lookupCell_setKey_ne _ _ _ _ hk)
    schema hnd [] f hf
    (fun a b _ => by rw [lookupCell_setKey_self, lookupCell_setKey_self])
  constructor
  · intro ht
    show lookupCell _ f.id = _
    rw [hstep, lookupCell_setKey_self, jsOr, if_pos ht]
  · intro hfalse
    show lookupCell _ f.id = _
    rw [hstep, lookupCell_setKey_self, jsOr, if_neg (by simp [hfalse])]

/-- C6 counterexample: a Number field with the present (but falsy)
defaultValue 0 is seeded with the empty string, not with 0, so
"initialized to the field's defaultValue when one is present" fails as
stated. -/
theorem c6_counterexample :
    ((addRow
        [{ id := "1", name := "Cost", type := FieldType.Number,
           defaultValue := CellValue.num 0 }] [] none).getD 0 default).get "1"
      = CellValue.str ""
    ∧ CellValue.str "" ≠ CellValue.num 0 := by
  constructor <;> decide

/-- C6 witness: a Boolean field with a truthy default is seeded with it,
and the new row carries the selected group id. -/
theorem c6_witness :
    (([({ id := "1", name := "Go", type := FieldType.Boolean,
          defaultValue := CellValue.bool true } : FieldDefinition)].map
        FieldDefinition.id).Nodup)
    ∧ ∃ nr, addRow
          [({ id := "1", name := "Go", type := FieldType.Boolean,
              defaultValue := CellValue.bool true } : FieldDefinition)] [] (some "G")
        = [nr] ∧ nr.__groupId = some "G" ∧ nr.get "1" = CellValue.bool true :=
  ⟨by decide, by
    obtain ⟨nr, h1, h2, h3⟩ := c6_add_row
      [({ id := "1", name := "Go", type := FieldType.Boolean,
          defaultValue := CellValue.bool true } : FieldDefinition)] [] (some "G")
      (by decide)
    exact ⟨nr, by simpa using h1, h2,
      (h3 ({ id := "1", name := "Go", type := FieldType.Boolean,
             defaultValue := CellValue.bool true } : FieldDefinition)
        (by simp)).1 (by decide)⟩⟩

/-! ### AI enrichment lemmas -/

theorem enrichStep_other (gen : List (String × CellValue)) (tok : String → String)
    (item : List (String × CellValue)) (f : FieldDefinition) (k : String)
    (hk : k ≠ f.id) :
    lookupCell (enrichStep gen tok item f) k = lookupCell item k := by
  simp only [enrichStep]
  repeat' split
  all_goals simp [lookupCell_setKey_ne _ _ _ _ hk]

theorem enrichStep_dep (gen : List (String × CellValue)) (tok : String → String)
    (f : FieldDefinition) (a b : List (String × CellValue))
    (h : lookupCell a f.id = lookupCell b f.id) :
    lookupCell (enrichStep gen tok a f) f.id = lookupCell (enrichStep gen tok b f) f.id := by
  simp only [enrichStep]
  by_cases hurl : f.type = FieldType.ImageURL
  · have hnotfile : ¬(f.type = FieldType.ImageFile) := by
      rw [hurl]; intro hh; cases hh
    rw [if_pos hurl, if_pos hurl, if_neg hnotfile, if_neg hnotfile, ← h]
    split
    · rw [lookupCell_setKey_self, lookupCell_setKey_self]
    · exact h
  · by_cases hfile : f.type = FieldType.ImageFile
    · rw [if_neg hurl, if_neg hurl, if_pos hfile, if_pos hfile, ← h]
      split
      · rw [lookupCell_setKey_self, lookupCell_setKey_self]
      · split
        · rw [lookupCell_setKey_self, lookupCell_setKey_self]
        · exact h
    · rw [if_neg hurl, if_neg hurl, if_neg hfile, if_neg hfile]
      exact h

theorem enrich_lookup (schema : List FieldDefinition)
    (hnd : (schema.map FieldDefinition.id).Nodup) (gen : List (String × CellValue))
    (tok : String → String) (f : FieldDefinition) (hf : f ∈ schema) :
    lookupCell (enrichGeneratedItem schema tok gen) f.id
      = lookupCell (enrichStep gen tok gen f) f.id :=
  foldl_lookupCell_mem (enrichStep gen tok)
    (fun item g k hk => enrichStep_other gen tok item g k hk) schema hnd gen f hf
    (fun a b hab => enrichStep_dep gen tok f a b hab)

/-- C8 (amended): after a successful generation, every ImageURL field
whose returned string does not start with "http" is replaced by the
picsum placeholder URL seeded with the returned text (URL-encoded) or,
when that text is empty or absent, with the random token; ImageFile fields
are replaced by the placeholder object when the model's value is absent OR
an empty string (both are falsy), and a non-empty plain string v becomes
the object with fileName = filePath = v and no data; the enriched row is
appended to the row list. -/
theorem c8_ai_enrichment (p : ProjectData) (tok : String → String)
    (gen : List (String × CellValue))
    (hnd : (p.schema.map FieldDefinition.id).Nodup) :
    (handleAiGenerate p tok gen).rows
      = p.rows ++ [{ __groupId := none, cells := enrichGeneratedItem p.schema tok gen }]
    ∧ ∀ f ∈ p.schema,
        (f.type = FieldType.ImageURL →
          (∀ s, lookupCell gen f.id = CellValue.str s → jsStartsWith s "http" = false →
            lookupCell (enrichGeneratedItem p.schema tok gen) f.id
              = CellValue.str (picsumUrl (if s = "" then tok f.id else s)))
          ∧ (∀ s, lookupCell gen f.id = CellValue.str s → jsStartsWith s "http" = true →
              lookupCell (enrichGeneratedItem p.schema tok gen) f.id = CellValue.str s)
          ∧ (lookupCell gen f.id = CellValue.undef →
              lookupCell (enrichGeneratedItem p.schema tok gen) f.id
                = CellValue.str (picsumUrl (tok f.id))))
        ∧ (f.type = FieldType.ImageFile →
          (∀ s, lookupCell gen f.id = CellValue.str s → s ≠ "" →
            lookupCell (enrichGeneratedItem p.schema tok gen) f.id
              = CellValue.file { fileName := some s, filePath := some s, fileData := none })
          ∧ ((lookupCell gen f.id = CellValue.undef
              ∨ lookupCell gen f.id = CellValue.str "") →
              lookupCell (enrichGeneratedItem p.schema tok gen) f.id = placeholderFile)) := by
  refine ⟨rfl, ?_⟩
  intro f hf
  have hkey := enrich_lookup p.schema hnd gen tok f hf
  constructor
  · intro hurl
    have hnotfile : ¬(f.type = FieldType.ImageFile) := by
      rw [hurl]; intro hh; cases hh
    refine ⟨?_, ?_, ?_⟩
    · intro s hs hhttp
      rw [hkey]
      simp only [enrichStep, if_pos hurl, if_neg hnotfile, hs]
      have hsw : startsWithHttp (CellValue.str s) = false := by
        simp [startsWithHttp, hhttp]
      rw [hsw]
      simp only [Bool.not_false, if_true, lookupCell_setKey_self]
      by_cases hse : s = ""
      · simp [jsOr, CellValue.truthy, hse, CellValue.toJsString]
      · simp [jsOr, CellValue.truthy, hse, CellValue.toJsString]
    · intro s hs hhttp
      rw [hkey]
      simp only [enrichStep, if_pos hurl, if_neg hnotfile, hs]
      have hsw : startsWithHttp (CellValue.str s) = true := by
        simp [startsWithHttp, hhttp]
      rw [hsw]
      simp [hs]
    · intro hs
      rw [hkey]
      simp only [enrichStep, if_pos hurl, if_neg hnotfile, hs]
      simp [startsWithHttp, jsOr, CellValue.truthy, CellValue.toJsString,
        lookupCell_setKey_self]
  · intro hfile
    have hnoturl : ¬(f.type = FieldType.ImageURL) := by
      rw [hfile]; intro hh; cases hh
    refine ⟨?_, ?_⟩
    · intro s hs hne
      rw [hkey]
      simp only [enrichStep, if_neg hnoturl, if_pos hfile, hs]
      have ht : (CellValue.str s).truthy = true := by simp [CellValue.truthy, hne]
      rw [ht]
      simp [lookupCell_setKey_self]
    · intro hcase
      rw [hkey]
      rcases hcase with hs | hs <;>
        · simp only [enrichStep, if_neg hnoturl, if_pos hfile, hs]
          simp [CellValue.truthy, lookupCell_setKey_self]

/-- C8 counterexample: the model returning the plain (empty) string for an
ImageFile field yields the placeholder object, not an object with empty
fileName/filePath, so the claim's plain-string conversion rule fails as
stated for the empty string. -/
theorem c8_counterexample :
    lookupCell (enrichGeneratedItem
        [{ id := "1", name := "Img", type := FieldType.ImageFile }]
        (fun _ => "tok") [("1", CellValue.str "")]) "1"
      = placeholderFile
    ∧ placeholderFile
      ≠ CellValue.file { fileName := some "", filePath := some "", fileData := none } := by
  constructor <;> decide

/-- C8 witness: an ImageURL field whose generated text is a plain
description gets the picsum URL seeded with that (non-empty) text. -/
theorem c8_witness :
    (([({ id := "1", name := "Art", type := FieldType.ImageURL } : FieldDefinition)].map
        FieldDefinition.id).Nodup)
    ∧ lookupCell (enrichGeneratedItem
          [({ id := "1", name := "Art", type := FieldType.ImageURL } : FieldDefinition)]
          (fun _ => "tok") [("1", CellValue.str "an axe")]) "1"
        = CellValue.str (picsumUrl (if "an axe" = "" then "tok" else "an axe")) :=
  ⟨by decide,
    (((c8_ai_enrichment
        { name := "p",
          schema :=
            [({ id := "1", name := "Art", type := FieldType.ImageURL } : FieldDefinition)],
          groups := [], rows := [] }
        (fun _ => "tok") [("1", CellValue.str "an axe")] (by decide)).2
      ({ id := "1", name := "Art", type := FieldType.ImageURL } : FieldDefinition)
      (by simp)).1 rfl).1 "an axe" rfl (by decide)⟩

/-- C9 (amended): the shipped mapping special-cases only the legacy
unified Image type with the creative visual description; ImageURL is not
special-cased and, like ImageFile, Text and LongText, maps to a free-text
string described by the bare field name. -/
theorem c9_gemini_mapping (field : FieldDefinition) :
    (field.type = FieldType.Image →
      mapFieldTypeToGeminiType field
        = { type := GeminiType.STRING,
            description := "A creative visual description or URL for " ++ field.name,
            enum := none })
    ∧ ((field.type = FieldType.ImageURL ∨ field.type = FieldType.ImageFile
        ∨ field.type = FieldType.Text ∨ field.type = FieldType.LongText) →
      mapFieldTypeToGeminiType field
        = { type := GeminiType.STRING, description := field.name, enum := none }) := by
  constructor
  · intro ht
    simp [mapFieldTypeToGeminiType, ht]
  · intro ht
    rcases ht with h | h | h | h <;> simp [mapFieldTypeToGeminiType, h]

/-- C9 counterexample: an ImageURL field is described by its bare name;
the claimed creative-description template is not applied to it. -/
theorem c9_counterexample :
    (mapFieldTypeToGeminiType
        { id := "5", name := "Card Art", type := FieldType.ImageURL }).description
      = "Card Art"
    ∧ (mapFieldTypeToGeminiType
        { id := "5", name := "Card Art", type := FieldType.ImageURL }).description
      ≠ "A creative visual description or URL for Card Art" := by
  constructor <;> decide

/-- C9 witness: a legacy Image field does receive the creative
description. -/
theorem c9_witness :
    mapFieldTypeToGeminiType { id := "5", name := "Art", type := FieldType.Image }
      = { type := GeminiType.STRING,
          description := "A creative visual description or URL for " ++ "Art",
          enum := none } :=
  (c9_gemini_mapping { id := "5", name := "Art", type := FieldType.Image }).1 rfl

/-! ### Row-move lemmas -/

theorem groupPositions_sublist_range (rows : List RowData) (g : Option String) :
    List.Sublist (groupPositions rows g) (List.range rows.length) := by
  have h1 : List.Sublist (rows.enum.filter (fun q => q.2.__groupId == g)) rows.enum :=
    List.filter_sublist _
  have h2 := h1.map Prod.fst
  rw [List.enum_map_fst] at h2
  simpa [groupPositions] using h2

theorem groupPositions_nodup (rows : List RowData) (g : Option String) :
    (groupPositions rows g).Nodup :=
  (groupPositions_sublist_range rows g).nodup (List.nodup_range _)

theorem mem_groupPositions {rows : List RowData} {g : Option String} {k : Nat} :
    k ∈ groupPositions rows g ↔ ∃ r, rows[k]? = some r ∧ r.__groupId = g := by
  unfold groupPositions
  constructor
  · intro hk
    obtain ⟨pr, hpr, hfst⟩ := List.mem_map.mp hk
    obtain ⟨hmem, hp⟩ := List.mem_filter.mp hpr
    obtain ⟨n, r⟩ := pr
    cases hfst
    exact ⟨r, List.mk_mem_enum_iff_getElem?.mp hmem, by simpa using hp⟩
  · rintro ⟨r, hr, hg⟩
    exact List.mem_map.mpr ⟨(k, r), List.mem_filter.mpr
      ⟨List.mk_mem_enum_iff_getElem?.mpr hr, by simpa using hg⟩, rfl⟩

theorem groupPositions_group {rows : List RowData} {g : Option String} {k : Nat}
    (hk : k ∈ groupPositions rows g) :
    k < rows.length ∧ (rows.getD k default).__groupId = g := by
  obtain ⟨r, hr, hg⟩ := mem_groupPositions.mp hk
  refine ⟨(List.getElem?_eq_some.mp hr).1, ?_⟩
  rw [List.getD_eq_getElem?_getD, hr]
  exact hg

theorem findIdx?_go_eq_of_nodup {l : List Nat} {i pos : Nat} (s : Nat) (hnd : l.Nodup)
    (hpos : l[pos]? = some i) : l.findIdx? (fun k => k == i) s = some (s + pos) := by
  induction l generalizing pos s with
  | nil => simp at hpos
  | cons x xs ih =>
      rw [List.nodup_cons] at hnd
      cases pos with
      | zero =>
          have hx : x = i := by simpa using hpos
          rw [List.findIdx?_cons, if_pos (by simpa using hx)]
          simp
      | succ n =>
          have hxs : xs[n]? = some i := by simpa using hpos
          have hmem : i ∈ xs := List.getElem?_mem hxs
          have hne : (x == i) = false := by
            simp only [beq_eq_false_iff_ne]
            intro he
            exact hnd.1 (he ▸ hmem)
          rw [List.findIdx?_cons, if_neg (by simp [hne]), ih (s + 1) hnd.2 hxs]
          congr 1
          omega

theorem findIdx?_eq_of_nodup {l : List Nat} {i pos : Nat} (hnd : l.Nodup)
    (hpos : l[pos]? = some i) : l.findIdx? (fun k => k == i) = some pos := by
  have := findIdx?_go_eq_of_nodup 0 hnd hpos
  simpa using this

theorem swapRows_getD_ne (rows : List RowData) (i j k : Nat) (hki : k ≠ i)
    (hkj : k ≠ j) : (swapRows rows i j).getD k default = rows.getD k default := by
  unfold swapRows
  rw [List.getD_eq_getElem?_getD, List.getElem?_set_ne (Ne.symm hkj),
    List.getElem?_set_ne (Ne.symm hki), List.getD_eq_getElem?_getD]

theorem swapRows_length (rows : List RowData) (i j : Nat) :
    (swapRows rows i j).length = rows.length := by
  simp [swapRows]

theorem getD_mem_of_lt (l : List Nat) (n : Nat) (hn : n < l.length) : l.getD n 0 ∈ l := by
  rw [List.getD_eq_getElem?_getD, List.getElem?_eq_getElem hn]
  exact List.getElem_mem hn

/-- C7: moving a row swaps it with the neighbouring row position computed
only among the rows carrying the same group membership (ungrouped rows
move among ungrouped rows); moving the first row of a group upward or the
last row downward is a no-op; any row that changes belongs to the moved
row's own group, and the row count is preserved. -/
theorem c7_move_row (rows : List RowData) (i : Nat) (d : Int) (hi : i < rows.length)
    (hd : d = -1 ∨ d = 1) :
    ((groupPositions rows ((rows.getD i default).__groupId)).head? = some i → d = -1 →
      moveRowWithinGroup rows i d ((rows.getD i default).__groupId) = rows)
    ∧ ((groupPositions rows ((rows.getD i default).__groupId)).getLast? = some i → d = 1 →
      moveRowWithinGroup rows i d ((rows.getD i default).__groupId) = rows)
    ∧ (∀ pos j, (groupPositions rows ((rows.getD i default).__groupId))[pos]? = some i →
        d = -1 → pos ≠ 0 →
        (groupPositions rows ((rows.getD i default).__groupId))[pos - 1]? = some j →
        moveRowWithinGroup rows i d ((rows.getD i default).__groupId)
          = swapRows rows i j
        ∧ (rows.getD j default).__groupId = (rows.getD i default).__groupId)
    ∧ (∀ pos j, (groupPositions rows ((rows.getD i default).__groupId))[pos]? = some i →
        d = 1 →
        (groupPositions rows ((rows.getD i default).__groupId))[pos + 1]? = some j →
        moveRowWithinGroup rows i d ((rows.getD i default).__groupId)
          = swapRows rows i j
        ∧ (rows.getD j default).__groupId = (rows.getD i default).__groupId)
    ∧ (∀ k, k < rows.length →
        (moveRowWithinGroup rows i d ((rows.getD i default).__groupId)).getD k default
          ≠ rows.getD k default →
        (rows.getD k default).__groupId = (rows.getD i default).__groupId)
    ∧ (moveRowWithinGroup rows i d ((rows.getD i default).__groupId)).length
        = rows.length := by
  have hnd := groupPositions_nodup rows ((rows.getD i default).__groupId)
  refine ⟨?_, ?_, ?_, ?_, ?_, ?_⟩
  · intro hh hdneg
    subst hdneg
    rw [List.head?_eq_getElem?] at hh
    have hfind := findIdx?_eq_of_nodup hnd hh
    simp only [moveRowWithinGroup, hfind]
    rw [if_pos (by omega)]
  · intro hl hdpos
    subst hdpos
    rw [List.getLast?_eq_getElem?] at hl
    have hlen : (groupPositions rows ((rows.getD i default).__groupId)).length - 1
        < (groupPositions rows ((rows.getD i default).__groupId)).length :=
      (List.getElem?_eq_some.mp hl).1
    have hfind := findIdx?_eq_of_nodup hnd hl
    simp only [moveRowWithinGroup, hfind]
    rw [if_pos (by omega)]
  · intro pos j hpos hdneg hpos0 hj
    subst hdneg
    have hfind := findIdx?_eq_of_nodup hnd hpos
    have hposlt : pos < (groupPositions rows ((rows.getD i default).__groupId)).length :=
      (List.getElem?_eq_some.mp hpos).1
    simp only [moveRowWithinGroup, hfind]
    rw [if_neg (by omega)]
    have htn : ((pos : Int) + -1).toNat = pos - 1 := by omega
    rw [htn]
    have hgd : (groupPositions rows ((rows.getD i default).__groupId)).getD (pos - 1) 0
        = j := by
      rw [List.getD_eq_getElem?_getD, hj]
      rfl
    rw [hgd]
    exact ⟨rfl, (groupPositions_group (List.getElem?_mem hj)).2⟩
  · intro pos j hpos hdpos hj
    subst hdpos
    have hfind := findIdx?_eq_of_nodup hnd hpos
    have hjlt : pos + 1 < (groupPositions rows ((rows.getD i default).__groupId)).length :=
      (List.getElem?_eq_some.mp hj).1
    simp only [moveRowWithinGroup, hfind]
    rw [if_neg (by omega)]
    have htn : ((pos : Int) + 1).toNat = pos + 1 := by omega
    rw [htn]
    have hgd : (groupPositions rows ((rows.getD i default).__groupId)).getD (pos + 1) 0
        = j := by
      rw [List.getD_eq_getElem?_getD, hj]
      rfl
    rw [hgd]
    exact ⟨rfl, (groupPositions_group (List.getElem?_mem hj)).2⟩
  · intro k hk hne
    cases hfind : (groupPositions rows
        ((rows.getD i default).__groupId)).findIdx? (fun m => m == i) with
    | none =>
        exfalso
        apply hne
        simp only [moveRowWithinGroup, hfind]
    | some pos =>
        by_cases hb : ((pos : Int) + d < 0
            ∨ ((groupPositions rows ((rows.getD i default).__groupId)).length : Int)
              ≤ (pos : Int) + d)
        · exfalso
          apply hne
          simp only [moveRowWithinGroup, hfind]
          rw [if_pos hb]
        · have hlt : ((pos : Int) + d).toNat
              < (groupPositions rows ((rows.getD i default).__groupId)).length := by
            omega
          set t := ((pos : Int) + d).toNat with hts
          have htm : (groupPositions rows ((rows.getD i default).__groupId)).getD t 0
              ∈ groupPositions rows ((rows.getD i default).__groupId) :=
            getD_mem_of_lt _ t hlt
          by_cases hki : k = i
          · subst hki
            rfl
          · by_cases hkt : k = (groupPositions rows
                ((rows.getD i default).__groupId)).getD t 0
            · rw [hkt]
              exact (groupPositions_group htm).2
            · exfalso
              apply hne
              simp only [moveRowWithinGroup, hfind]
              rw [if_neg hb]
              exact swapRows_getD_ne rows i _ k hki hkt
  · cases hfind : (groupPositions rows
        ((rows.getD i default).__groupId)).findIdx? (fun m => m == i) with
    | none => simp only [moveRowWithinGroup, hfind]
    | some pos =>
        simp only [moveRowWithinGroup, hfind]
        split
        · rfl
        · exact swapRows_length rows i _

/-- C7 witness: in a list with two rows of group "A" followed by an
ungrouped row, moving the first row of group "A" upward is a no-op. -/
theorem c7_witness :
    (0 : Nat) < 3
    ∧ moveRowWithinGroup
        [{ __groupId := some "A" }, { __groupId := some "A" }, { __groupId := none }] 0 (-1)
        (([({ __groupId := some "A" } : RowData), { __groupId := some "A" },
            { __groupId := none }].getD 0 default).__groupId)
      = [{ __groupId := some "A" }, { __groupId := some "A" }, { __groupId := none }] :=
  ⟨by decide,
    (c7_move_row
      [{ __groupId := some "A" }, { __groupId := some "A" }, { __groupId := none }]
      0 (-1) (by decide) (Or.inl rfl)).1 (by decide) rfl⟩

/-- C3 witness: a one-field, one-row project exports to two parsed lines
of one field each. -/
theorem c3_witness :
    ((',' : Char) = ',' ∨ (',' : Char) = ';')
    ∧ (csvParse ','
        (exportToCsv
          { name := "p",
            schema := [{ id := "1", name := "Name", type := FieldType.Text }],
            groups := [],
            rows := [{ __groupId := none, cells := [("1", CellValue.str "x")] }] } ',')).length
      = ({ name := "p",
           schema := [{ id := "1", name := "Name", type := FieldType.Text }],
           groups := [],
           rows := [{ __groupId := none,
                      cells := [("1", CellValue.str "x")] }] } : ProjectData).rows.length
        + 1 :=
  ⟨Or.inl rfl,
    (c3_csv_line_and_field_counts
      { name := "p",
        schema := [{ id := "1", name := "Name", type := FieldType.Text }],
        groups := [],
        rows := [{ __groupId := none, cells := [("1", CellValue.str "x")] }] } ','
      (Or.inl rfl) (by decide) (by decide)).1⟩
